import Mathlib

/-!
Shallow embedding of `crates/bevy_ecs/src/system/system_registry.rs`.

The registry stores type-erased, stateful systems and a map from labels to
the indices of the systems registered under them.  We model:

* the world as an abstract state type `W`,
* a system's internal cached state as a value of an abstract type `σ`
  (the Rust code erases it behind `Box<dyn System>`; here every stored
  system carries its state together with its `initialize`, `run` and
  `apply_buffers` operations),
* labels as an abstract type `L` with decidable equality (Rust compares
  boxed `dyn SystemLabel` values via `dyn_eq`),
* the `HashMap<Box<dyn SystemLabel>, Vec<usize>>` as an association list
  `List (L × List Nat)` (keys are inserted at most once, so first-match
  lookup coincides with hash-map lookup),
* Rust panics (out-of-bounds `self.systems[index]`, `.unwrap()`) as
  `Option.none`; `&mut` state is threaded explicitly, so operations return
  the updated registry and world.
-/

/-- The type-erased `Box<dyn System<In = (), Out = ()>>`: internal state plus
the `initialize`, `run` and `apply_buffers` operations and the
`default_labels` the system type declares. -/
structure BoxedSystem (σ W L : Type) where
  state : σ
  initFn : σ → W → σ × W
  runFn : σ → W → σ × W
  applyBuffersFn : σ → W → σ × W
  defaultLabels : List L

/-- `struct StoredSystem { system: Box<dyn System<In = (), Out = ()>> }`. -/
structure StoredSystem (σ W L : Type) where
  system : BoxedSystem σ W L

/-- `struct SystemRegistry { systems: Vec<StoredSystem>, labels: HashMap<Box<dyn SystemLabel>, Vec<usize>> }`. -/
structure SystemRegistry (σ W L : Type) where
  systems : List (StoredSystem σ W L)
  labels : List (L × List Nat)

/-- `struct Callback { label: Box<dyn SystemLabel> }`. -/
structure Callback (L : Type) where
  label : L

/-- `enum SystemRegistryError { LabelNotFound(Box<dyn SystemLabel>) }`. -/
inductive SystemRegistryError (L : Type) where
  | labelNotFound (label : L)
  deriving DecidableEq

/-- A system value `S : IntoSystem<(), (), Params>` as passed to
`register_system` / `run_system`: its automatic type-identity label
`SystemTypeIdLabel::<S>` (a function of the static type `S` only) together
with the boxed system `IntoSystem::into_system(system)` it converts into. -/
structure SystemValue (σ W L : Type) where
  autoLabel : L
  into_system : BoxedSystem σ W L

/-- Hash-map lookup `self.labels.get(&label)`, modelled on the association
list: first entry with a matching key. -/
def alist_get [DecidableEq L] : List (L × α) → L → Option α
  | [], _ => none
  | (k, v) :: rest, label => if k = label then some v else alist_get rest label

/-- One iteration of the label-indexing loop in
`register_boxed_system_with_labels`: if the label already has an entry, push
the index onto its vector (`label_indexes.push(system_index)`); otherwise
insert a fresh singleton entry (`self.labels.insert(label, vec![system_index])`). -/
def index_under_label [DecidableEq L] :
    List (L × List Nat) → L → Nat → List (L × List Nat)
  | [], label, i => [(label, [i])]
  | (k, v) :: rest, label, i =>
      if k = label then (k, v ++ [i]) :: rest
      else (k, v) :: index_under_label rest label i

namespace SystemRegistry

variable {σ W L : Type} [DecidableEq L]

/-- `Default for SystemRegistry`: empty store, empty label map. -/
def default : SystemRegistry σ W L := ⟨[], []⟩

/-- `SystemRegistry::register_boxed_system_with_labels`: initialize the
system's state against the world, append the stored system at index
`self.systems.len()`, index that position under every supplied label, and
return the index. -/
def register_boxed_system_with_labels (r : SystemRegistry σ W L) (world : W)
    (boxed_system : BoxedSystem σ W L) (labels : List L) :
    SystemRegistry σ W L × W × Nat :=
  let initialized := boxed_system.initFn boxed_system.state world
  let stored_system : StoredSystem σ W L := ⟨{ boxed_system with state := initialized.1 }⟩
  let system_index := r.systems.length
  (⟨r.systems ++ [stored_system],
    labels.foldl (fun m label => index_under_label m label system_index) r.labels⟩,
   initialized.2, system_index)

/-- `SystemRegistry::is_label_registered`: is there a map entry for this label? -/
def is_label_registered (r : SystemRegistry σ W L) (label : L) : Bool :=
  (alist_get r.labels label).isSome

/-- `SystemRegistry::first_registered_index`:
`self.labels.get(&label)?.iter().next().copied()`. -/
def first_registered_index (r : SystemRegistry σ W L) (label : L) : Option Nat :=
  (alist_get r.labels label).bind List.head?

/-- `SystemRegistry::register_system`: derive the automatic type-identity
label; if it is not yet registered, box the system and register it under
that single label; otherwise only emit a warning (no state change). -/
def register_system (r : SystemRegistry σ W L) (world : W)
    (system : SystemValue σ W L) : SystemRegistry σ W L × W :=
  let automatic_system_label := system.autoLabel
  if ¬ r.is_label_registered automatic_system_label then
    let res := r.register_boxed_system_with_labels world system.into_system
      [automatic_system_label]
    (res.1, res.2.1)
  else
    (r, world)

/-- `SystemRegistry::register_system_with_labels`: box the system and the
labels and forward to `register_boxed_system_with_labels` (the returned
index is discarded, as in the source). -/
def register_system_with_labels (r : SystemRegistry σ W L) (world : W)
    (system : SystemValue σ W L) (labels : List L) : SystemRegistry σ W L × W :=
  let res := r.register_boxed_system_with_labels world system.into_system labels
  (res.1, res.2.1)

/-- `SystemRegistry::run_system_at_index`: `&mut self.systems[index]` (a
panic — `none` — when out of bounds), run the stored system against the
world, then immediately apply its buffered commands (`apply_buffers`). -/
def run_system_at_index (r : SystemRegistry σ W L) (world : W) (index : Nat) :
    Option (SystemRegistry σ W L × W) :=
  match r.systems.get? index with
  | none => none
  | some stored_system =>
      let ran := stored_system.system.runFn stored_system.system.state world
      let flushed := stored_system.system.applyBuffersFn ran.1 ran.2
      some (⟨r.systems.set index ⟨{ stored_system.system with state := flushed.1 }⟩, r.labels⟩,
            flushed.2)

/-- The `for index in matching_indexes.clone()` loop of `run_callback`:
run the system at each index in order, threading registry and world. -/
def run_indexes (r : SystemRegistry σ W L) (world : W) :
    List Nat → Option (SystemRegistry σ W L × W)
  | [] => some (r, world)
  | index :: rest =>
      match r.run_system_at_index world index with
      | none => none
      | some (r', world') => run_indexes r' world' rest

/-- `SystemRegistry::run_callback`: look the callback's label up in the map;
if present, run every matching index in registration order; otherwise
return `Err(SystemRegistryError::LabelNotFound(label))`.  The registry and
world are returned alongside the `Result` (they are `&mut` in Rust); the
outer `Option` is `none` exactly when the Rust code would panic. -/
def run_callback (r : SystemRegistry σ W L) (world : W) (callback : Callback L) :
    Option (SystemRegistry σ W L × W × Except (SystemRegistryError L) Unit) :=
  let boxed_label := callback.label
  match alist_get r.labels boxed_label with
  | some matching_indexes =>
      match r.run_indexes world matching_indexes with
      | none => none
      | some (r', world') => some (r', world', Except.ok ())
  | none => some (r, world, Except.error (SystemRegistryError.labelNotFound boxed_label))

/-- `SystemRegistry::run_systems_by_label`: wrap the label in a `Callback`
and forward to `run_callback`. -/
def run_systems_by_label (r : SystemRegistry σ W L) (world : W) (label : L) :
    Option (SystemRegistry σ W L × W × Except (SystemRegistryError L) Unit) :=
  r.run_callback world ⟨label⟩

/-- `SystemRegistry::run_system`: if the automatic type-identity label is
registered, take `first_registered_index(..).unwrap()` (`none` models the
unwrap panic); otherwise register the boxed system under its
`default_labels()` and take the fresh index.  Then run at that index. -/
def run_system (r : SystemRegistry σ W L) (world : W)
    (system : SystemValue σ W L) : Option (SystemRegistry σ W L × W) :=
  let automatic_system_label := system.autoLabel
  if r.is_label_registered automatic_system_label then
    match r.first_registered_index automatic_system_label with
    | none => none
    | some index => r.run_system_at_index world index
  else
    let boxed_system := system.into_system
    let labels := boxed_system.defaultLabels
    let res := r.register_boxed_system_with_labels world boxed_system labels
    res.1.run_system_at_index res.2.1 res.2.2

end SystemRegistry

/-- `struct RunSystemsByLabelCommand { callback: Callback }`. -/
structure RunSystemsByLabelCommand (L : Type) where
  callback : Callback L

/-- `Command::write` for `RunSystemsByLabelCommand`: forward to
`run_callback` and `.unwrap()` the result — a `LabelNotFound` error becomes
a panic (`none`). -/
def RunSystemsByLabelCommand.write {σ W L : Type} [DecidableEq L]
    (cmd : RunSystemsByLabelCommand L) (r : SystemRegistry σ W L) (world : W) :
    Option (SystemRegistry σ W L × W) :=
  match r.run_callback world cmd.callback with
  | none => none
  | some (r', world', Except.ok _) => some (r', world')
  | some (_, _, Except.error _) => none

/-- `struct RunSystemCommand { system: S, .. }`. -/
structure RunSystemCommand (σ W L : Type) where
  system : SystemValue σ W L

/-- `Command::write` for `RunSystemCommand`: forward to `run_system`. -/
def RunSystemCommand.write {σ W L : Type} [DecidableEq L]
    (cmd : RunSystemCommand σ W L) (r : SystemRegistry σ W L) (world : W) :
    Option (SystemRegistry σ W L × W) :=
  r.run_system world cmd.system

/-- `Callback::new`: wrap the system's automatic type-identity label. -/
def Callback.new {σ W L : Type} (system : SystemValue σ W L) : Callback L :=
  ⟨system.autoLabel⟩

/-! ## Well-formedness invariant

Every index vector stored in the label map is non-empty, its entries are
valid positions into `systems`, and it is sorted (a later registration
always receives a strictly larger index, and the same index may be pushed
several times when the supplied label list has duplicates). -/

/-- Invariant of a single index vector of the label map, relative to the
number `n` of stored systems. -/
def WFentry (n : Nat) (v : List Nat) : Prop :=
  v ≠ [] ∧ (∀ j ∈ v, j < n) ∧ v.Pairwise (· ≤ ·)

/-- Registry invariant: every entry of the label map satisfies `WFentry`. -/
def WF {σ W L : Type} (r : SystemRegistry σ W L) : Prop :=
  ∀ p ∈ r.labels, WFentry r.systems.length p.2

/-- The identity of a stored system: everything except its mutable internal
state. -/
def shape {σ W L : Type} (s : StoredSystem σ W L) :
    (σ → W → σ × W) × (σ → W → σ × W) × (σ → W → σ × W) × List L :=
  (s.system.initFn, s.system.runFn, s.system.applyBuffersFn, s.system.defaultLabels)

/-- `i` is one of the indices registered under label `l`. -/
def indexed_under {σ W L : Type} [DecidableEq L]
    (r : SystemRegistry σ W L) (l : L) (i : Nat) : Prop :=
  ∃ idxs, alist_get r.labels l = some idxs ∧ i ∈ idxs

/-- The registry may only be extended: the store never shrinks, existing
slots keep their system (only its internal state may advance), and every
label's index sequence is only appended to. -/
def append_only {σ W L : Type} [DecidableEq L]
    (r r' : SystemRegistry σ W L) : Prop :=
  r.systems.length ≤ r'.systems.length ∧
  (∀ j, j < r.systems.length →
    (r'.systems.get? j).map shape = (r.systems.get? j).map shape) ∧
  ∀ l, ∃ t, (alist_get r'.labels l).getD [] = (alist_get r.labels l).getD [] ++ t

section Lemmas

variable {σ W L : Type} [DecidableEq L]

theorem alist_get_index_under_self (m : List (L × List Nat)) (k : L) (i : Nat) :
    alist_get (index_under_label m k i) k = some ((alist_get m k).getD [] ++ [i]) := by
  induction m with
  | nil => simp [index_under_label, alist_get]
  | cons p rest ih =>
    obtain ⟨k', v⟩ := p
    by_cases h : k' = k
    · subst h
      simp [index_under_label, alist_get]
    · simp [index_under_label, alist_get, h, ih]

theorem alist_get_index_under_ne (m : List (L × List Nat)) {k k' : L} (i : Nat)
    (h : k' ≠ k) :
    alist_get (index_under_label m k i) k' = alist_get m k' := by
  induction m with
  | nil => simp [index_under_label, alist_get, Ne.symm h]
  | cons p rest ih =>
    obtain ⟨k₀, v⟩ := p
    by_cases h₀ : k₀ = k
    · subst h₀
      simp [index_under_label, alist_get, Ne.symm h]
    · by_cases h₁ : k₀ = k'
      · subst h₁
        simp [index_under_label, alist_get, h₀]
      · simp [index_under_label, alist_get, h₀, h₁, ih]

theorem alist_get_fold_not_mem {labels : List L} {l : L}
    (h : l ∉ labels) (m : List (L × List Nat)) (i : Nat) :
    alist_get (labels.foldl (fun m label => index_under_label m label i) m) l
      = alist_get m l := by
  induction labels generalizing m with
  | nil => rfl
  | cons a rest ih =>
    have ha : l ≠ a := fun hh => h (hh ▸ List.mem_cons_self a rest)
    have hrest : l ∉ rest := fun hh => h (List.mem_cons_of_mem a hh)
    simp only [List.foldl_cons]
    rw [ih hrest, alist_get_index_under_ne m i ha]

theorem alist_get_fold_mem {labels : List L} {l : L}
    (h : l ∈ labels) (m : List (L × List Nat)) (i : Nat) :
    ∃ c, alist_get (labels.foldl (fun m label => index_under_label m label i) m) l
      = some ((alist_get m l).getD [] ++ List.replicate (c + 1) i) := by
  induction labels generalizing m with
  | nil => cases h
  | cons a rest ih =>
    simp only [List.foldl_cons]
    by_cases ha : a = l
    · subst ha
      by_cases hrest : a ∈ rest
      · obtain ⟨c, hc⟩ := ih hrest (index_under_label m a i)
        refine ⟨c + 1, ?_⟩
        rw [hc, alist_get_index_under_self]
        simp [List.replicate_succ, List.append_assoc]
      · refine ⟨0, ?_⟩
        rw [alist_get_fold_not_mem hrest, alist_get_index_under_self]
        simp
    · have hrest : l ∈ rest := by
        rcases List.mem_cons.mp h with h' | h'
        · exact absurd h'.symm ha
        · exact h'
      obtain ⟨c, hc⟩ := ih hrest (index_under_label m a i)
      refine ⟨c, ?_⟩
      rw [hc, alist_get_index_under_ne m i (fun hh => ha hh.symm)]

theorem alist_get_mem {m : List (L × α)} {k : L} {v : α}
    (h : alist_get m k = some v) : (k, v) ∈ m := by
  induction m with
  | nil => cases h
  | cons p rest ih =>
    obtain ⟨k₀, v₀⟩ := p
    simp only [alist_get] at h
    by_cases h₀ : k₀ = k
    · subst h₀
      rw [if_pos rfl] at h
      injection h with h
      subst h
      exact List.mem_cons_self _ _
    · rw [if_neg h₀] at h
      exact List.mem_cons_of_mem _ (ih h)

theorem mem_index_under {m : List (L × List Nat)} {k : L} {i : Nat} {p : L × List Nat}
    (h : p ∈ index_under_label m k i) :
    p ∈ m ∨ (∃ v, p = (k, v ++ [i]) ∧ (k, v) ∈ m) ∨ p = (k, [i]) := by
  induction m with
  | nil =>
    simp only [index_under_label, List.mem_singleton] at h
    exact Or.inr (Or.inr h)
  | cons q rest ih =>
    obtain ⟨k₀, v₀⟩ := q
    simp only [index_under_label] at h
    by_cases h₀ : k₀ = k
    · subst h₀
      rw [if_pos rfl] at h
      rcases List.mem_cons.mp h with h | h
      · exact Or.inr (Or.inl ⟨v₀, h, List.mem_cons_self _ _⟩)
      · exact Or.inl (List.mem_cons_of_mem _ h)
    · rw [if_neg h₀] at h
      rcases List.mem_cons.mp h with h | h
      · exact Or.inl (h ▸ List.mem_cons_self _ _)
      · rcases ih h with h' | h' | h'
        · exact Or.inl (List.mem_cons_of_mem _ h')
        · obtain ⟨v, hv, hm⟩ := h'
          exact Or.inr (Or.inl ⟨v, hv, List.mem_cons_of_mem _ hm⟩)
        · exact Or.inr (Or.inr h')

theorem fold_entries (Q : List Nat → Prop) {m : List (L × List Nat)} {i : Nat}
    (labels : List L)
    (hm : ∀ p ∈ m, Q p.2) (happ : ∀ v, Q v → Q (v ++ [i])) (hsing : Q [i]) :
    ∀ p ∈ labels.foldl (fun m label => index_under_label m label i) m, Q p.2 := by
  induction labels generalizing m with
  | nil => exact hm
  | cons a rest ih =>
    simp only [List.foldl_cons]
    refine ih ?_
    intro p hp
    rcases mem_index_under hp with h | h | h
    · exact hm p h
    · obtain ⟨v, hv, hmem⟩ := h
      rw [hv]
      exact happ v (hm _ hmem)
    · rw [h]
      exact hsing

theorem register_boxed_systems_eq (r : SystemRegistry σ W L) (world : W)
    (b : BoxedSystem σ W L) (labels : List L) :
    (r.register_boxed_system_with_labels world b labels).1.systems
      = r.systems ++ [⟨{ b with state := (b.initFn b.state world).1 }⟩] := rfl

theorem register_boxed_index_eq (r : SystemRegistry σ W L) (world : W)
    (b : BoxedSystem σ W L) (labels : List L) :
    (r.register_boxed_system_with_labels world b labels).2.2 = r.systems.length := rfl

theorem register_boxed_WF {r : SystemRegistry σ W L} (hWF : WF r) (world : W)
    (b : BoxedSystem σ W L) (labels : List L) :
    WF (r.register_boxed_system_with_labels world b labels).1 := by
  intro p hp
  have hlen : (r.register_boxed_system_with_labels world b labels).1.systems.length
      = r.systems.length + 1 := by
    rw [register_boxed_systems_eq]
    simp
  rw [hlen]
  have hQ := fold_entries
    (fun v => v ≠ [] ∧ (∀ j ∈ v, j ≤ r.systems.length) ∧ v.Pairwise (· ≤ ·))
    labels
    (fun q hq => by
      obtain ⟨h₁, h₂, h₃⟩ := hWF q hq
      exact ⟨h₁, fun j hj => Nat.le_of_lt (h₂ j hj), h₃⟩)
    (fun v hv => by
      obtain ⟨h₁, h₂, h₃⟩ := hv
      refine ⟨by simp, ?_, ?_⟩
      · intro j hj
        rcases List.mem_append.mp hj with hj | hj
        · exact h₂ j hj
        · simp only [List.mem_singleton] at hj
          exact hj.le
      · rw [List.pairwise_append]
        refine ⟨h₃, List.pairwise_singleton _ _, ?_⟩
        intro a ha b hb
        simp only [List.mem_singleton] at hb
        exact hb ▸ h₂ a ha)
    ⟨by simp, by simp, List.pairwise_singleton _ _⟩
    p hp
  obtain ⟨h₁, h₂, h₃⟩ := hQ
  exact ⟨h₁, fun j hj => Nat.lt_succ_of_le (h₂ j hj), h₃⟩

theorem register_boxed_append_only (r : SystemRegistry σ W L) (world : W)
    (b : BoxedSystem σ W L) (labels : List L) :
    append_only r (r.register_boxed_system_with_labels world b labels).1 := by
  refine ⟨?_, ?_, ?_⟩
  · rw [register_boxed_systems_eq]
    simp
  · intro j hj
    rw [register_boxed_systems_eq, List.get?_append hj]
  · intro l
    by_cases hl : l ∈ labels
    · obtain ⟨c, hc⟩ := alist_get_fold_mem hl r.labels r.systems.length
      refine ⟨List.replicate (c + 1) r.systems.length, ?_⟩
      show (alist_get (labels.foldl _ r.labels) l).getD [] = _
      rw [hc]
      rfl
    · refine ⟨[], ?_⟩
      show (alist_get (labels.foldl _ r.labels) l).getD [] = _
      rw [alist_get_fold_not_mem hl]
      simp

theorem rsai_none {r : SystemRegistry σ W L} {i : Nat} (w : W)
    (hg : r.systems.get? i = none) :
    r.run_system_at_index w i = none := by
  rw [SystemRegistry.run_system_at_index, hg]

theorem rsai_eq {r : SystemRegistry σ W L} {i : Nat} {s : StoredSystem σ W L} (w : W)
    (hg : r.systems.get? i = some s) :
    r.run_system_at_index w i = some
      (⟨r.systems.set i ⟨{ s.system with
          state := (s.system.applyBuffersFn (s.system.runFn s.system.state w).1
            (s.system.runFn s.system.state w).2).1 }⟩, r.labels⟩,
       (s.system.applyBuffersFn (s.system.runFn s.system.state w).1
          (s.system.runFn s.system.state w).2).2) := by
  rw [SystemRegistry.run_system_at_index, hg]

theorem rsai_some {r : SystemRegistry σ W L} {i : Nat} (hi : i < r.systems.length)
    (w : W) :
    ∃ p, r.run_system_at_index w i = some p := by
  rcases hg : r.systems.get? i with _ | s
  · rw [List.get?_eq_none] at hg
    omega
  · exact ⟨_, rsai_eq w hg⟩

theorem rsai_spec {r r' : SystemRegistry σ W L} {w w' : W} {i : Nat}
    (h : r.run_system_at_index w i = some (r', w')) :
    r'.labels = r.labels ∧ r'.systems.length = r.systems.length ∧
      ∀ j, (r'.systems.get? j).map shape = (r.systems.get? j).map shape := by
  rcases hg : r.systems.get? i with _ | s
  · rw [rsai_none w hg] at h
    cases h
  · rw [rsai_eq w hg] at h
    injection h with h
    injection h with h₁ h₂
    subst h₁
    refine ⟨rfl, by simp, ?_⟩
    intro j
    by_cases hj : i = j
    · subst hj
      have hlt : i < r.systems.length := by
        by_contra hc
        rw [List.get?_eq_none.mpr (Nat.le_of_not_lt hc)] at hg
        cases hg
      show ((r.systems.set i _).get? i).map shape = _
      rw [List.get?_set_eq_of_lt _ hlt, hg]
      rfl
    · show ((r.systems.set i _).get? j).map shape = _
      rw [List.get?_set_ne _ _ hj]

theorem run_indexes_cons (r : SystemRegistry σ W L) (w : W) (i : Nat) (rest : List Nat) :
    r.run_indexes w (i :: rest)
      = (r.run_system_at_index w i).bind fun p => p.1.run_indexes p.2 rest := by
  rw [SystemRegistry.run_indexes]
  rcases hstep : r.run_system_at_index w i with _ | ⟨r₁, w₁⟩ <;> rfl

theorem run_indexes_spec {idxs : List Nat} :
    ∀ {r r' : SystemRegistry σ W L} {w w' : W},
    r.run_indexes w idxs = some (r', w') →
    r'.labels = r.labels ∧ r'.systems.length = r.systems.length ∧
      ∀ j, (r'.systems.get? j).map shape = (r.systems.get? j).map shape := by
  induction idxs with
  | nil =>
    intro r r' w w' h
    rw [SystemRegistry.run_indexes] at h
    injection h with h
    injection h with h₁ h₂
    subst h₁
    exact ⟨rfl, rfl, fun _ => rfl⟩
  | cons i rest ih =>
    intro r r' w w' h
    rw [run_indexes_cons] at h
    rcases hstep : r.run_system_at_index w i with _ | ⟨r₁, w₁⟩
    · rw [hstep] at h
      cases h
    · rw [hstep, Option.some_bind] at h
      obtain ⟨h₁, h₂, h₃⟩ := rsai_spec hstep
      obtain ⟨h₁', h₂', h₃'⟩ := ih h
      exact ⟨h₁'.trans h₁, h₂'.trans h₂, fun j => (h₃' j).trans (h₃ j)⟩

theorem run_indexes_some {idxs : List Nat} :
    ∀ {r : SystemRegistry σ W L} (w : W),
    (∀ i ∈ idxs, i < r.systems.length) →
    ∃ p, r.run_indexes w idxs = some p := by
  induction idxs with
  | nil => exact fun w _ => ⟨_, rfl⟩
  | cons i rest ih =>
    intro r w hb
    obtain ⟨⟨r₁, w₁⟩, hstep⟩ := rsai_some (hb i (List.mem_cons_self _ _)) w
    obtain ⟨_, hlen, _⟩ := rsai_spec hstep
    obtain ⟨p, hp⟩ := ih (r := r₁) w₁
      (fun j hj => hlen ▸ hb j (List.mem_cons_of_mem _ hj))
    refine ⟨p, ?_⟩
    rw [run_indexes_cons, hstep, Option.some_bind, hp]

theorem WF_of_eq {r r' : SystemRegistry σ W L}
    (hl : r'.labels = r.labels) (hn : r'.systems.length = r.systems.length)
    (hWF : WF r) : WF r' := by
  intro p hp
  rw [hn]
  exact hWF p (hl ▸ hp)

theorem run_callback_none_eq {r : SystemRegistry σ W L} {cb : Callback L} (w : W)
    (hg : alist_get r.labels cb.label = none) :
    r.run_callback w cb
      = some (r, w, Except.error (SystemRegistryError.labelNotFound cb.label)) := by
  rw [SystemRegistry.run_callback, hg]

theorem run_callback_some_eq {r : SystemRegistry σ W L} {cb : Callback L} {idxs : List Nat}
    (w : W) (hg : alist_get r.labels cb.label = some idxs) :
    r.run_callback w cb
      = (r.run_indexes w idxs).map fun p => (p.1, p.2, Except.ok ()) := by
  rw [SystemRegistry.run_callback, hg]
  show (match r.run_indexes w idxs with
    | none => none
    | some (r', world') => some (r', world', Except.ok ())) = _
  rcases hrun : r.run_indexes w idxs with _ | ⟨r₁, w₁⟩ <;> rfl

theorem run_callback_spec {r r' : SystemRegistry σ W L} {w w' : W}
    {cb : Callback L} {e : Except (SystemRegistryError L) Unit}
    (h : r.run_callback w cb = some (r', w', e)) :
    r'.labels = r.labels ∧ r'.systems.length = r.systems.length ∧
      ∀ j, (r'.systems.get? j).map shape = (r.systems.get? j).map shape := by
  rcases hg : alist_get r.labels cb.label with _ | idxs
  · rw [run_callback_none_eq w hg] at h
    injection h with h
    injection h with h₁ h₂
    subst h₁
    exact ⟨rfl, rfl, fun _ => rfl⟩
  · rw [run_callback_some_eq w hg] at h
    rcases hrun : r.run_indexes w idxs with _ | ⟨r₁, w₁⟩
    · rw [hrun] at h
      cases h
    · rw [hrun, Option.map_some'] at h
      injection h with h
      injection h with h₁ h₂
      subst h₁
      exact run_indexes_spec hrun

theorem run_callback_some {r : SystemRegistry σ W L} (hWF : WF r) (w : W)
    (cb : Callback L) :
    ∃ p, r.run_callback w cb = some p := by
  rcases hg : alist_get r.labels cb.label with _ | idxs
  · exact ⟨_, run_callback_none_eq w hg⟩
  · have hb : ∀ i ∈ idxs, i < r.systems.length :=
      (hWF _ (alist_get_mem hg)).2.1
    obtain ⟨⟨r₁, w₁⟩, hrun⟩ := run_indexes_some w hb
    exact ⟨_, by rw [run_callback_some_eq w hg, hrun, Option.map_some']⟩

theorem run_system_registered_eq {r : SystemRegistry σ W L} {sys : SystemValue σ W L}
    (w : W) (h : r.is_label_registered sys.autoLabel = true) :
    r.run_system w sys
      = (r.first_registered_index sys.autoLabel).bind
          (fun index => r.run_system_at_index w index) := by
  rw [SystemRegistry.run_system]
  simp only [h, if_true]
  show (match r.first_registered_index sys.autoLabel with
    | none => none
    | some index => r.run_system_at_index w index) = _
  rcases r.first_registered_index sys.autoLabel with _ | i <;> rfl

theorem run_system_unregistered_eq {r : SystemRegistry σ W L} {sys : SystemValue σ W L}
    (w : W) (h : r.is_label_registered sys.autoLabel = false) :
    r.run_system w sys
      = (r.register_boxed_system_with_labels w sys.into_system
            sys.into_system.defaultLabels).1.run_system_at_index
          (r.register_boxed_system_with_labels w sys.into_system
            sys.into_system.defaultLabels).2.1
          (r.register_boxed_system_with_labels w sys.into_system
            sys.into_system.defaultLabels).2.2 := by
  rw [SystemRegistry.run_system]
  simp only [h, Bool.false_eq_true, if_false]

theorem register_system_registered_eq {r : SystemRegistry σ W L} {sys : SystemValue σ W L}
    (w : W) (h : r.is_label_registered sys.autoLabel = true) :
    r.register_system w sys = (r, w) := by
  rw [SystemRegistry.register_system]
  simp only [h, eq_self_iff_true, not_true, if_false]

theorem register_system_unregistered_eq {r : SystemRegistry σ W L} {sys : SystemValue σ W L}
    (w : W) (h : r.is_label_registered sys.autoLabel = false) :
    r.register_system w sys
      = ((r.register_boxed_system_with_labels w sys.into_system [sys.autoLabel]).1,
         (r.register_boxed_system_with_labels w sys.into_system [sys.autoLabel]).2.1) := by
  rw [SystemRegistry.register_system]
  simp only [h, Bool.false_eq_true, not_false_iff, if_true]

theorem register_boxed_labels_eq (r : SystemRegistry σ W L) (w : W)
    (b : BoxedSystem σ W L) (labels : List L) :
    (r.register_boxed_system_with_labels w b labels).1.labels
      = labels.foldl (fun m label => index_under_label m label r.systems.length)
          r.labels := rfl

theorem register_boxed_labels_singleton (r : SystemRegistry σ W L) (w : W)
    (b : BoxedSystem σ W L) (l : L) :
    (r.register_boxed_system_with_labels w b [l]).1.labels
      = index_under_label r.labels l r.systems.length := rfl

theorem pairwise_le_head {v : List Nat} {h : Nat}
    (hp : v.Pairwise (· ≤ ·)) (hh : v.head? = some h) :
    ∀ a ∈ v, h ≤ a := by
  cases v with
  | nil => cases hh
  | cons x t =>
    injection hh with hh
    subst hh
    intro a ha
    rcases List.mem_cons.mp ha with ha | ha
    · exact ha ▸ Nat.le_refl _
    · exact (List.pairwise_cons.mp hp).1 a ha

theorem first_index_of_registered {r : SystemRegistry σ W L} {l : L}
    (hWF : WF r) (h : r.is_label_registered l = true) :
    ∃ i, r.first_registered_index l = some i ∧ i < r.systems.length := by
  rcases hg : alist_get r.labels l with _ | idxs
  · rw [SystemRegistry.is_label_registered, hg] at h
    cases h
  · obtain ⟨hne, hb, -⟩ := hWF _ (alist_get_mem hg)
    rcases hh : idxs.head? with _ | i
    · rw [List.head?_eq_none_iff] at hh
      exact absurd hh hne
    · exact ⟨i,
        by rw [SystemRegistry.first_registered_index, hg, Option.some_bind, hh],
        hb i (List.mem_of_mem_head? hh)⟩

theorem run_system_fresh {r : SystemRegistry σ W L} {sys : SystemValue σ W L} (w : W)
    (hreg : r.is_label_registered sys.autoLabel = false)
    (hdl : sys.into_system.defaultLabels = [sys.autoLabel]) :
    ∃ r₁ w₁, r.run_system w sys = some (r₁, w₁) ∧
      r.run_system w sys
        = (r.register_boxed_system_with_labels w sys.into_system
            sys.into_system.defaultLabels).1.run_system_at_index
            (r.register_boxed_system_with_labels w sys.into_system
              sys.into_system.defaultLabels).2.1 r.systems.length ∧
      r₁.systems.length = r.systems.length + 1 ∧
      alist_get r₁.labels sys.autoLabel = some [r.systems.length] := by
  have hnone : alist_get r.labels sys.autoLabel = none := by
    rcases hg : alist_get r.labels sys.autoLabel with _ | v
    · rfl
    · rw [SystemRegistry.is_label_registered, hg] at hreg
      cases hreg
  have hRlen : (r.register_boxed_system_with_labels w sys.into_system
      sys.into_system.defaultLabels).1.systems.length = r.systems.length + 1 := by
    rw [register_boxed_systems_eq]
    simp
  have heq : r.run_system w sys
      = (r.register_boxed_system_with_labels w sys.into_system
          sys.into_system.defaultLabels).1.run_system_at_index
          (r.register_boxed_system_with_labels w sys.into_system
            sys.into_system.defaultLabels).2.1 r.systems.length :=
    run_system_unregistered_eq w hreg
  obtain ⟨⟨r₁, w₁⟩, h₁⟩ := rsai_some (i := r.systems.length)
    (by rw [hRlen]; exact Nat.lt_succ_self _)
    (r.register_boxed_system_with_labels w sys.into_system
      sys.into_system.defaultLabels).2.1
  obtain ⟨hl₁, hn₁, -⟩ := rsai_spec h₁
  refine ⟨r₁, w₁, heq.trans h₁, heq, hn₁.trans hRlen, ?_⟩
  rw [hl₁, hdl, register_boxed_labels_singleton, alist_get_index_under_self, hnone]
  rfl

theorem append_only_refl (r : SystemRegistry σ W L) : append_only r r :=
  ⟨Nat.le_refl _, fun _ _ => rfl, fun _ => ⟨[], (List.append_nil _).symm⟩⟩

theorem append_only_trans {r₁ r₂ r₃ : SystemRegistry σ W L}
    (h₁ : append_only r₁ r₂) (h₂ : append_only r₂ r₃) : append_only r₁ r₃ := by
  obtain ⟨hl₁, hs₁, hp₁⟩ := h₁
  obtain ⟨hl₂, hs₂, hp₂⟩ := h₂
  refine ⟨Nat.le_trans hl₁ hl₂, ?_, ?_⟩
  · intro j hj
    exact (hs₂ j (Nat.lt_of_lt_of_le hj hl₁)).trans (hs₁ j hj)
  · intro l
    obtain ⟨t₁, ht₁⟩ := hp₁ l
    obtain ⟨t₂, ht₂⟩ := hp₂ l
    exact ⟨t₁ ++ t₂, by rw [ht₂, ht₁, List.append_assoc]⟩

theorem append_only_of_spec {r r' : SystemRegistry σ W L}
    (hl : r'.labels = r.labels) (hn : r'.systems.length = r.systems.length)
    (hs : ∀ j, (r'.systems.get? j).map shape = (r.systems.get? j).map shape) :
    append_only r r' :=
  ⟨Nat.le_of_eq hn.symm, fun j _ => hs j,
   fun l => ⟨[], by rw [hl, List.append_nil]⟩⟩

end Lemmas

/-! ## Concrete instances used by the witnesses -/

/-- A concrete boxed system over `σ = W = L = Nat`: running it bumps the
state and the world, flushing adds `100` to the world. -/
def demo_system : BoxedSystem Nat Nat Nat :=
  ⟨0, fun s w => (s, w + 1), fun s w => (s + 1, w + 10), fun s w => (s, w + 100), [7]⟩

/-- A concrete system value with automatic label `7`. -/
def demo_value : SystemValue Nat Nat Nat := ⟨7, demo_system⟩

/-- A concrete registry: two stored copies of `demo_system`, slot 0 indexed
under label `7`, slots 0 and 1 under label `3`. -/
def demo_registry : SystemRegistry Nat Nat Nat :=
  ⟨[⟨demo_system⟩, ⟨demo_system⟩], [(7, [0]), (3, [0, 1])]⟩

/-! ## The claims -/

/-- Statement of claim C3: running by a label with zero registered systems
returns `LabelNotFound` carrying the offending label, does not panic
(`some`, not `none`), and leaves the registry and the world unchanged. -/
def C3_prop {σ W L : Type} [DecidableEq L] (r : SystemRegistry σ W L) (w : W)
    (label : L) : Prop :=
  r.run_systems_by_label w label
      = some (r, w, Except.error (SystemRegistryError.labelNotFound label)) ∧
  r.run_callback w ⟨label⟩
      = some (r, w, Except.error (SystemRegistryError.labelNotFound label))

/-- Claim C3: for every label under which zero systems are registered,
`run_systems_by_label` (and `run_callback`) returns a label-not-found error
carrying the offending label; it does not panic, and both the world and the
registry are left unchanged. -/
theorem claim_C3 {σ W L : Type} [DecidableEq L] (r : SystemRegistry σ W L)
    (w : W) (label : L) (hWF : WF r)
    (hzero : ∀ i, ¬ indexed_under r label i) : C3_prop r w label := by
  have hg : alist_get r.labels label = none := by
    rcases hg : alist_get r.labels label with _ | idxs
    · rfl
    · obtain ⟨hne, -, -⟩ := hWF _ (alist_get_mem hg)
      rcases List.exists_mem_of_ne_nil idxs hne with ⟨i, hi⟩
      exact absurd ⟨idxs, hg, hi⟩ (hzero i)
  exact ⟨run_callback_none_eq w hg, run_callback_none_eq w hg⟩

/-- Witness for C3 at a concrete registry and the unregistered label `99`. -/
theorem claim_C3_witness :
    WF demo_registry ∧ (∀ i, ¬ indexed_under demo_registry 99 i) ∧
      C3_prop demo_registry 0 99 := by
  refine ⟨by unfold WF WFentry; decide, ?_, ?_⟩
  · intro i hi
    rcases hi with ⟨idxs, hg, -⟩
    exact Option.noConfusion hg
  · exact claim_C3 demo_registry 0 99 (by unfold WF WFentry; decide)
      (fun i hi => by rcases hi with ⟨idxs, hg, -⟩; exact Option.noConfusion hg)

/-- Statement of claim C5: a `register_system` call whose automatic label is
already registered is a complete no-op on registry and world. -/
def C5_prop {σ W L : Type} [DecidableEq L] (r : SystemRegistry σ W L) (w : W)
    (sys : SystemValue σ W L) : Prop :=
  r.register_system w sys = (r, w)

/-- Claim C5: `register_system` is idempotent per system type: if a stored
system is already registered under the system's automatic type-identity
label, a further `register_system` call with the same type leaves the
registry and the world completely unchanged (only a warning is logged), and
no error is returned (the operation is infallible by type). -/
theorem claim_C5 {σ W L : Type} [DecidableEq L] (r : SystemRegistry σ W L)
    (w : W) (sys : SystemValue σ W L)
    (h : ∃ i, indexed_under r sys.autoLabel i) : C5_prop r w sys := by
  obtain ⟨i, idxs, hg, -⟩ := h
  exact register_system_registered_eq w
    (by rw [SystemRegistry.is_label_registered, hg]; rfl)

/-- Witness for C5: `demo_value`'s automatic label `7` is registered in
`demo_registry`, so re-registering changes nothing. -/
theorem claim_C5_witness :
    (∃ i, indexed_under demo_registry demo_value.autoLabel i) ∧
      C5_prop demo_registry 0 demo_value :=
  ⟨⟨0, [0], rfl, List.mem_singleton.mpr rfl⟩,
   claim_C5 demo_registry 0 demo_value ⟨0, [0], rfl, List.mem_singleton.mpr rfl⟩⟩

/-- Statement of claim C6: `is_label_registered` answers membership, and
`first_registered_index` returns the least (= earliest-assigned) index
registered under the label, or `none` when the label is absent. -/
def C6_prop {σ W L : Type} [DecidableEq L] (r : SystemRegistry σ W L) (l : L) : Prop :=
  (r.is_label_registered l = true ↔ ∃ i, indexed_under r l i) ∧
  (∀ i, r.first_registered_index l = some i ↔
    indexed_under r l i ∧ ∀ j, indexed_under r l j → i ≤ j) ∧
  (r.first_registered_index l = none ↔ ¬ ∃ i, indexed_under r l i)

/-- Claim C6: for every label, `is_label_registered` returns `true` iff at
least one system index is indexed under that label, and
`first_registered_index` returns the earliest-registered (least) index
among the systems indexed under that label, or nothing if the label is
absent. -/
theorem claim_C6 {σ W L : Type} [DecidableEq L] (r : SystemRegistry σ W L)
    (l : L) (hWF : WF r) : C6_prop r l := by
  refine ⟨⟨?_, ?_⟩, ?_, ?_⟩
  · intro h
    rcases hg : alist_get r.labels l with _ | idxs
    · rw [SystemRegistry.is_label_registered, hg] at h
      cases h
    · obtain ⟨hne, -, -⟩ := hWF _ (alist_get_mem hg)
      rcases List.exists_mem_of_ne_nil idxs hne with ⟨i, hi⟩
      exact ⟨i, idxs, hg, hi⟩
  · rintro ⟨i, idxs, hg, -⟩
    rw [SystemRegistry.is_label_registered, hg]
    rfl
  · intro i
    constructor
    · intro h
      rcases hg : alist_get r.labels l with _ | idxs
      · rw [SystemRegistry.first_registered_index, hg] at h
        cases h
      · rw [SystemRegistry.first_registered_index, hg, Option.some_bind] at h
        obtain ⟨-, -, hpw⟩ := hWF _ (alist_get_mem hg)
        refine ⟨⟨idxs, hg, List.mem_of_mem_head? h⟩, ?_⟩
        rintro j ⟨idxs', hg', hj⟩
        rw [hg] at hg'
        injection hg' with hg'
        subst hg'
        exact pairwise_le_head hpw h j hj
    · rintro ⟨⟨idxs, hg, hi⟩, hleast⟩
      rw [SystemRegistry.first_registered_index, hg, Option.some_bind]
      obtain ⟨hne, -, hpw⟩ := hWF _ (alist_get_mem hg)
      rcases hh : idxs.head? with _ | h
      · rw [List.head?_eq_none_iff] at hh
        exact absurd hh hne
      · have hmem : h ∈ idxs := List.mem_of_mem_head? hh
        have h₁ : i ≤ h := hleast h ⟨idxs, hg, hmem⟩
        have h₂ : h ≤ i := pairwise_le_head hpw hh i hi
        rw [Nat.le_antisymm h₂ h₁]
  · constructor
    · rintro h ⟨i, idxs, hg, hi⟩
      rw [SystemRegistry.first_registered_index, hg, Option.some_bind] at h
      obtain ⟨hne, -, -⟩ := hWF _ (alist_get_mem hg)
      rw [List.head?_eq_none_iff] at h
      exact hne h
    · intro h
      rcases hg : alist_get r.labels l with _ | idxs
      · rw [SystemRegistry.first_registered_index, hg]
        rfl
      · obtain ⟨hne, -, -⟩ := hWF _ (alist_get_mem hg)
        rcases List.exists_mem_of_ne_nil idxs hne with ⟨i, hi⟩
        exact absurd ⟨i, idxs, hg, hi⟩ h

/-- Witness for C6 at `demo_registry` and label `3` (two registered slots). -/
theorem claim_C6_witness : WF demo_registry ∧ C6_prop demo_registry 3 :=
  ⟨by unfold WF WFentry; decide,
   claim_C6 demo_registry 3 (by unfold WF WFentry; decide)⟩

/-- Statement of claim C4: registration with explicit labels unconditionally
appends a freshly initialized stored system, returns the previous store
size as its index, indexes the new slot under every supplied label (and
under no other), and the typed wrapper forwards to the boxed registration,
discarding the returned index. -/
def C4_prop {σ W L : Type} [DecidableEq L] (r : SystemRegistry σ W L) (w : W)
    (sys : SystemValue σ W L) (labels : List L) : Prop :=
  (r.register_boxed_system_with_labels w sys.into_system labels).1.systems
      = r.systems ++ [⟨{ sys.into_system with
          state := (sys.into_system.initFn sys.into_system.state w).1 }⟩] ∧
  (r.register_boxed_system_with_labels w sys.into_system labels).2.2
      = r.systems.length ∧
  (∀ l ∈ labels,
    indexed_under (r.register_boxed_system_with_labels w sys.into_system labels).1
      l r.systems.length) ∧
  (∀ l, l ∉ labels →
    alist_get (r.register_boxed_system_with_labels w sys.into_system labels).1.labels l
      = alist_get r.labels l) ∧
  r.register_system_with_labels w sys labels
      = ((r.register_boxed_system_with_labels w sys.into_system labels).1,
         (r.register_boxed_system_with_labels w sys.into_system labels).2.1)

/-- Claim C4: `register_system_with_labels` unconditionally wraps and
appends a new stored system (no duplicate suppression), indexes it under
every supplied label, and the underlying boxed registration returns the
newly assigned stable index, equal to the number of systems stored before
the call. -/
theorem claim_C4 {σ W L : Type} [DecidableEq L] (r : SystemRegistry σ W L)
    (w : W) (sys : SystemValue σ W L) (labels : List L) : C4_prop r w sys labels := by
  refine ⟨rfl, rfl, ?_, ?_, rfl⟩
  · intro l hl
    obtain ⟨c, hc⟩ := alist_get_fold_mem hl r.labels r.systems.length
    refine ⟨_, hc, ?_⟩
    exact List.mem_append_right _
      (List.mem_replicate.mpr ⟨Nat.succ_ne_zero c, rfl⟩)
  · intro l hl
    exact alist_get_fold_not_mem hl r.labels r.systems.length

/-- Statement of claim C2: running by a (registered) label runs exactly the
indices recorded for that label, sequentially and in list (= registration)
order; the loop is the sequential fold of single runs, and a single run
executes the stored system and immediately flushes its buffers into the
world before returning. -/
def C2_prop {σ W L : Type} [DecidableEq L] (r : SystemRegistry σ W L) (w : W)
    (label : L) (idxs : List Nat) : Prop :=
  r.run_systems_by_label w label
      = (r.run_indexes w idxs).map (fun p => (p.1, p.2, Except.ok ())) ∧
  r.run_callback w ⟨label⟩ = r.run_systems_by_label w label ∧
  (∀ (r' : SystemRegistry σ W L) (w' : W), r'.run_indexes w' [] = some (r', w')) ∧
  (∀ (r' : SystemRegistry σ W L) (w' : W) (i : Nat) (rest : List Nat),
    r'.run_indexes w' (i :: rest)
      = (r'.run_system_at_index w' i).bind fun p => p.1.run_indexes p.2 rest) ∧
  (∀ (r' : SystemRegistry σ W L) (w' : W) (i : Nat) (s : StoredSystem σ W L),
    r'.systems.get? i = some s →
    r'.run_system_at_index w' i = some
      (⟨r'.systems.set i ⟨{ s.system with
          state := (s.system.applyBuffersFn (s.system.runFn s.system.state w').1
            (s.system.runFn s.system.state w').2).1 }⟩, r'.labels⟩,
       (s.system.applyBuffersFn (s.system.runFn s.system.state w').1
          (s.system.runFn s.system.state w').2).2))

/-- Claim C2: for every label with registered systems, `run_systems_by_label`
/ `run_callback` runs each matching stored system sequentially in exact
registration order, and each system's buffered side effects are flushed
into the world immediately after that system executes, before the next one
starts and before control returns. -/
theorem claim_C2 {σ W L : Type} [DecidableEq L] (r : SystemRegistry σ W L)
    (w : W) (label : L) (idxs : List Nat)
    (hg : alist_get r.labels label = some idxs) : C2_prop r w label idxs := by
  refine ⟨run_callback_some_eq w hg, rfl, fun _ _ => rfl, ?_, ?_⟩
  · intro r' w' i rest
    exact run_indexes_cons r' w' i rest
  · intro r' w' i s hs
    exact rsai_eq w' hs

/-- Witness for C2 at `demo_registry` and label `3`, registered at slots 0
and 1. -/
theorem claim_C2_witness :
    alist_get demo_registry.labels 3 = some [0, 1] ∧
      C2_prop demo_registry 0 3 [0, 1] :=
  ⟨rfl, claim_C2 demo_registry 0 3 [0, 1] rfl⟩

/-- Statement of claim C8: on a label with no registered systems, the
deferred command panics (`none`), while the direct calls return the
label-not-found error as a value. -/
def C8_prop {σ W L : Type} [DecidableEq L] (r : SystemRegistry σ W L) (w : W)
    (label : L) : Prop :=
  RunSystemsByLabelCommand.write ⟨⟨label⟩⟩ r w = (none : Option (SystemRegistry σ W L × W)) ∧
  r.run_callback w ⟨label⟩
      = some (r, w, Except.error (SystemRegistryError.labelNotFound label)) ∧
  r.run_systems_by_label w label
      = some (r, w, Except.error (SystemRegistryError.labelNotFound label))

/-- Claim C8: when the deferred `RunSystemsByLabelCommand` is applied to a
world whose registry has no system under the callback's label, it treats
the label-not-found result as an unrecoverable failure (a panic, `none`),
whereas the direct `run_callback` / `run_systems_by_label` calls return it
as a recoverable error value. -/
theorem claim_C8 {σ W L : Type} [DecidableEq L] (r : SystemRegistry σ W L)
    (w : W) (label : L) (hWF : WF r)
    (hzero : ∀ i, ¬ indexed_under r label i) : C8_prop r w label := by
  have hg : alist_get r.labels label = none := by
    rcases hg : alist_get r.labels label with _ | idxs
    · rfl
    · obtain ⟨hne, -, -⟩ := hWF _ (alist_get_mem hg)
      rcases List.exists_mem_of_ne_nil idxs hne with ⟨i, hi⟩
      exact absurd ⟨idxs, hg, hi⟩ (hzero i)
  refine ⟨?_, run_callback_none_eq w hg, run_callback_none_eq w hg⟩
  rw [RunSystemsByLabelCommand.write, run_callback_none_eq w hg]

/-- Witness for C8 at a concrete registry and the unregistered label `42`. -/
theorem claim_C8_witness :
    WF demo_registry ∧ (∀ i, ¬ indexed_under demo_registry 42 i) ∧
      C8_prop demo_registry 0 42 := by
  refine ⟨by unfold WF WFentry; decide, ?_, ?_⟩
  · intro i hi
    rcases hi with ⟨idxs, hg, -⟩
    exact Option.noConfusion hg
  · exact claim_C8 demo_registry 0 42 (by unfold WF WFentry; decide)
      (fun i hi => by rcases hi with ⟨idxs, hg, -⟩; exact Option.noConfusion hg)

/-- Statement of claim C9: every operation preserves the registry invariant
(non-empty per-label index vectors whose entries are in bounds), and under
that invariant the run paths — which index the system store unchecked —
never hit the out-of-bounds panic (`none`). -/
def C9_prop {σ W L : Type} [DecidableEq L] (r : SystemRegistry σ W L) (w : W)
    (sys : SystemValue σ W L) (labels : List L) (cb : Callback L) : Prop :=
  WF (r.register_boxed_system_with_labels w sys.into_system labels).1 ∧
  WF (r.register_system w sys).1 ∧
  WF (r.register_system_with_labels w sys labels).1 ∧
  (∀ r' w', r.run_system w sys = some (r', w') → WF r') ∧
  (∀ r' w' e, r.run_callback w cb = some (r', w', e) → WF r') ∧
  (∃ p, r.run_callback w cb = some p) ∧
  (∃ p, r.run_systems_by_label w cb.label = some p) ∧
  (∃ p, r.run_system w sys = some p)

/-- Claim C9: every registry operation maintains the invariant that each
per-label index list is non-empty with all indices strictly below the
length of the systems vector; therefore the unchecked indexing performed by
`run_system_at_index` on behalf of `run_callback` and `run_system` can
never go out of bounds. -/
theorem claim_C9 {σ W L : Type} [DecidableEq L] (r : SystemRegistry σ W L)
    (w : W) (sys : SystemValue σ W L) (labels : List L) (cb : Callback L)
    (hWF : WF r) : C9_prop r w sys labels cb := by
  refine ⟨register_boxed_WF hWF w _ _, ?_, register_boxed_WF hWF w _ _, ?_, ?_, ?_, ?_, ?_⟩
  · cases hreg : r.is_label_registered sys.autoLabel
    · rw [register_system_unregistered_eq w hreg]
      exact register_boxed_WF hWF w _ _
    · rw [register_system_registered_eq w hreg]
      exact hWF
  · intro r' w' h
    cases hreg : r.is_label_registered sys.autoLabel
    · rw [run_system_unregistered_eq w hreg] at h
      obtain ⟨hl, hn, -⟩ := rsai_spec h
      exact WF_of_eq hl hn (register_boxed_WF hWF w _ _)
    · rw [run_system_registered_eq w hreg] at h
      rcases hi : r.first_registered_index sys.autoLabel with _ | i
      · rw [hi] at h
        cases h
      · rw [hi, Option.some_bind] at h
        obtain ⟨hl, hn, -⟩ := rsai_spec h
        exact WF_of_eq hl hn hWF
  · intro r' w' e h
    obtain ⟨hl, hn, -⟩ := run_callback_spec h
    exact WF_of_eq hl hn hWF
  · exact run_callback_some hWF w cb
  · exact run_callback_some hWF w ⟨cb.label⟩
  · cases hreg : r.is_label_registered sys.autoLabel
    · rw [run_system_unregistered_eq w hreg]
      refine rsai_some ?_ _
      rw [register_boxed_index_eq, register_boxed_systems_eq]
      simp
    · obtain ⟨i, hi, hlt⟩ := first_index_of_registered hWF hreg
      rw [run_system_registered_eq w hreg, hi, Option.some_bind]
      exact rsai_some hlt w

/-- Witness for C9 at concrete registry, system and callback. -/
theorem claim_C9_witness :
    WF demo_registry ∧ C9_prop demo_registry 0 demo_value [3] ⟨3⟩ :=
  ⟨by unfold WF WFentry; decide,
   claim_C9 demo_registry 0 demo_value [3] ⟨3⟩ (by unfold WF WFentry; decide)⟩

/-- Statement of claim C7: every operation relates the old and new registry
by `append_only`: the store never shrinks, every pre-existing slot keeps
its system (its operations and default labels — only the internal cached
state may advance), and every label's index sequence is only ever appended
to, preserving registration order. -/
def C7_prop {σ W L : Type} [DecidableEq L] (r : SystemRegistry σ W L) (w : W)
    (sys : SystemValue σ W L) (labels : List L) (cb : Callback L) : Prop :=
  append_only r (r.register_system w sys).1 ∧
  append_only r (r.register_system_with_labels w sys labels).1 ∧
  append_only r (r.register_boxed_system_with_labels w sys.into_system labels).1 ∧
  (∀ r' w', r.run_system w sys = some (r', w') → append_only r r') ∧
  (∀ r' w' e, r.run_callback w cb = some (r', w', e) → append_only r r') ∧
  (∀ r' w' e, r.run_systems_by_label w cb.label = some (r', w', e) → append_only r r')

/-- Claim C7: the registry is append-only under every operation: the systems
collection only grows, assigned indices are never reused or reordered,
existing slots are never removed (their stored system's identity is
preserved; only its internal state advances when it runs), and each label's
index sequence preserves registration order. -/
theorem claim_C7 {σ W L : Type} [DecidableEq L] (r : SystemRegistry σ W L)
    (w : W) (sys : SystemValue σ W L) (labels : List L) (cb : Callback L) :
    C7_prop r w sys labels cb := by
  refine ⟨?_, register_boxed_append_only r w _ _, register_boxed_append_only r w _ _,
    ?_, ?_, ?_⟩
  · cases hreg : r.is_label_registered sys.autoLabel
    · rw [register_system_unregistered_eq w hreg]
      exact register_boxed_append_only r w _ _
    · rw [register_system_registered_eq w hreg]
      exact append_only_refl r
  · intro r' w' h
    cases hreg : r.is_label_registered sys.autoLabel
    · rw [run_system_unregistered_eq w hreg] at h
      obtain ⟨hl, hn, hs⟩ := rsai_spec h
      exact append_only_trans (register_boxed_append_only r w _ _)
        (append_only_of_spec hl hn hs)
    · rw [run_system_registered_eq w hreg] at h
      rcases hi : r.first_registered_index sys.autoLabel with _ | i
      · rw [hi] at h
        cases h
      · rw [hi, Option.some_bind] at h
        obtain ⟨hl, hn, hs⟩ := rsai_spec h
        exact append_only_of_spec hl hn hs
  · intro r' w' e h
    obtain ⟨hl, hn, hs⟩ := run_callback_spec h
    exact append_only_of_spec hl hn hs
  · intro r' w' e h
    obtain ⟨hl, hn, hs⟩ := run_callback_spec h
    exact append_only_of_spec hl hn hs

/-- Statement of claim C1: when the system's automatic label is registered,
`run_system` runs the cached stored system at the label's first registered
index, ignoring the passed-in system value; otherwise it registers the
system fresh under its default labels and runs it.  Two consecutive
`run_system` calls execute the same slot both times and the registry gains
at most one entry. -/
def C1_prop {σ W L : Type} [DecidableEq L] (r : SystemRegistry σ W L) (w : W)
    (sys : SystemValue σ W L) : Prop :=
  (r.is_label_registered sys.autoLabel = true →
    r.run_system w sys
        = (r.first_registered_index sys.autoLabel).bind
            (fun index => r.run_system_at_index w index) ∧
    ∀ b : BoxedSystem σ W L,
      r.run_system w (⟨sys.autoLabel, b⟩ : SystemValue σ W L) = r.run_system w sys) ∧
  (r.is_label_registered sys.autoLabel = false →
    r.run_system w sys
      = (r.register_boxed_system_with_labels w sys.into_system
          sys.into_system.defaultLabels).1.run_system_at_index
          (r.register_boxed_system_with_labels w sys.into_system
            sys.into_system.defaultLabels).2.1
          (r.register_boxed_system_with_labels w sys.into_system
            sys.into_system.defaultLabels).2.2) ∧
  ∃ (i : Nat) (r' : SystemRegistry σ W L) (w' : W) (r₁ : SystemRegistry σ W L)
      (w₁ : W) (r₂ : SystemRegistry σ W L) (w₂ : W),
    r.run_system w sys = r'.run_system_at_index w' i ∧
    r.run_system w sys = some (r₁, w₁) ∧
    r₁.first_registered_index sys.autoLabel = some i ∧
    r₁.run_system w₁ sys = r₁.run_system_at_index w₁ i ∧
    r₁.run_system w₁ sys = some (r₂, w₂) ∧
    r₂.systems.length = r₁.systems.length ∧
    r₁.systems.length ≤ r.systems.length + 1

/-- Claim C1: `run_system` reuses the cached stored system at the first
registered index of the system's automatic type-identity label when it is
registered (ignoring the passed-in value), and otherwise registers it
fresh under its default labels before running it; consequently two
consecutive `run_system` calls with the same type execute the same cached
slot both times and the registry gains at most one entry. -/
theorem claim_C1 {σ W L : Type} [DecidableEq L] (r : SystemRegistry σ W L)
    (w : W) (sys : SystemValue σ W L) (hWF : WF r)
    (hdl : sys.into_system.defaultLabels = [sys.autoLabel]) : C1_prop r w sys := by
  refine ⟨?_, fun hreg => run_system_unregistered_eq w hreg, ?_⟩
  · intro hreg
    refine ⟨run_system_registered_eq w hreg, ?_⟩
    intro b
    rw [run_system_registered_eq w hreg,
      @run_system_registered_eq σ W L _ r ⟨sys.autoLabel, b⟩ w hreg]
  · cases hreg : r.is_label_registered sys.autoLabel
    · obtain ⟨r₁, w₁, hsome, heq, hlen, hget⟩ := run_system_fresh w hreg hdl
      have hfirst : r₁.first_registered_index sys.autoLabel
          = some r.systems.length := by
        rw [SystemRegistry.first_registered_index, hget, Option.some_bind]
        rfl
      have hreg₁ : r₁.is_label_registered sys.autoLabel = true := by
        rw [SystemRegistry.is_label_registered, hget]
        rfl
      obtain ⟨⟨r₂, w₂⟩, h₂⟩ := rsai_some (r := r₁) (i := r.systems.length)
        (by omega) w₁
      have hsecond : r₁.run_system w₁ sys
          = r₁.run_system_at_index w₁ r.systems.length := by
        rw [run_system_registered_eq w₁ hreg₁, hfirst, Option.some_bind]
      exact ⟨r.systems.length, _, _, r₁, w₁, r₂, w₂, heq, hsome, hfirst,
        hsecond, hsecond.trans h₂, (rsai_spec h₂).2.1, by omega⟩
    · obtain ⟨i, hi, hlt⟩ := first_index_of_registered hWF hreg
      have heq1 : r.run_system w sys = r.run_system_at_index w i := by
        rw [run_system_registered_eq w hreg, hi, Option.some_bind]
      obtain ⟨⟨r₁, w₁⟩, h₁⟩ := rsai_some hlt w
      obtain ⟨hl₁, hn₁, -⟩ := rsai_spec h₁
      have hfirst₁ : r₁.first_registered_index sys.autoLabel = some i := by
        rw [SystemRegistry.first_registered_index, hl₁,
          ← SystemRegistry.first_registered_index]
        exact hi
      have hreg₁ : r₁.is_label_registered sys.autoLabel = true := by
        rw [SystemRegistry.is_label_registered, hl₁,
          ← SystemRegistry.is_label_registered]
        exact hreg
      obtain ⟨⟨r₂, w₂⟩, h₂⟩ := rsai_some (r := r₁) (i := i) (by omega) w₁
      have hsecond : r₁.run_system w₁ sys = r₁.run_system_at_index w₁ i := by
        rw [run_system_registered_eq w₁ hreg₁, hfirst₁, Option.some_bind]
      exact ⟨i, r, w, r₁, w₁, r₂, w₂, heq1, heq1.trans h₁, hfirst₁,
        hsecond, hsecond.trans h₂, (rsai_spec h₂).2.1, by omega⟩

/-- Statement of claim C10: after registering a system only under explicit
labels, its automatic type-identity label is still unregistered, so a
subsequent `run_system` with the same type does not reuse the labeled copy
(which sits at slot `r.systems.length`): it registers and runs a fresh,
independent stored system at the next slot, growing the store again. -/
def C10_prop {σ W L : Type} [DecidableEq L] (r : SystemRegistry σ W L) (w : W)
    (sys : SystemValue σ W L) (labels : List L) : Prop :=
  ∃ (r₁ : SystemRegistry σ W L) (w₁ : W),
    r.register_system_with_labels w sys labels = (r₁, w₁) ∧
    (∀ l ∈ labels, indexed_under r₁ l r.systems.length) ∧
    r₁.is_label_registered sys.autoLabel = false ∧
    r₁.systems.length = r.systems.length + 1 ∧
    r₁.run_system w₁ sys
      = (r₁.register_boxed_system_with_labels w₁ sys.into_system
          sys.into_system.defaultLabels).1.run_system_at_index
          (r₁.register_boxed_system_with_labels w₁ sys.into_system
            sys.into_system.defaultLabels).2.1 r₁.systems.length ∧
    ∃ (r₂ : SystemRegistry σ W L) (w₂ : W),
      r₁.run_system w₁ sys = some (r₂, w₂) ∧
      r₂.systems.length = r.systems.length + 2

/-- Claim C10: `register_system_with_labels` indexes the new stored system
only under the supplied labels, not under the system's automatic
type-identity label; hence a subsequent `run_system` with the same type
does not reuse that labeled copy but registers and runs a fresh,
independent stored system. -/
theorem claim_C10 {σ W L : Type} [DecidableEq L] (r : SystemRegistry σ W L)
    (w : W) (sys : SystemValue σ W L) (labels : List L)
    (hreg : r.is_label_registered sys.autoLabel = false)
    (hauto : sys.autoLabel ∉ labels) : C10_prop r w sys labels := by
  have hnone : alist_get r.labels sys.autoLabel = none := by
    rcases hg : alist_get r.labels sys.autoLabel with _ | v
    · rfl
    · rw [SystemRegistry.is_label_registered, hg] at hreg
      cases hreg
  have hget₁ : alist_get (r.register_boxed_system_with_labels w sys.into_system
      labels).1.labels sys.autoLabel = none := by
    rw [register_boxed_labels_eq, alist_get_fold_not_mem hauto, hnone]
  have hreg₁ : (r.register_boxed_system_with_labels w sys.into_system
      labels).1.is_label_registered sys.autoLabel = false := by
    rw [SystemRegistry.is_label_registered, hget₁]
    rfl
  have hlen₁ : (r.register_boxed_system_with_labels w sys.into_system
      labels).1.systems.length = r.systems.length + 1 := by
    rw [register_boxed_systems_eq]
    simp
  refine ⟨_, _, rfl, ?_, hreg₁, hlen₁, run_system_unregistered_eq _ hreg₁, ?_⟩
  · intro l hl
    obtain ⟨c, hc⟩ := alist_get_fold_mem hl r.labels r.systems.length
    refine ⟨_, hc, ?_⟩
    exact List.mem_append_right _
      (List.mem_replicate.mpr ⟨Nat.succ_ne_zero c, rfl⟩)
  · have hlenR : ((r.register_boxed_system_with_labels w sys.into_system
        labels).1.register_boxed_system_with_labels
        (r.register_boxed_system_with_labels w sys.into_system labels).2.1
        sys.into_system sys.into_system.defaultLabels).1.systems.length
        = r.systems.length + 2 := by
      rw [register_boxed_systems_eq, List.length_append, hlen₁]
      rfl
    obtain ⟨⟨r₂, w₂⟩, h₂⟩ := rsai_some
      (r := ((r.register_boxed_system_with_labels w sys.into_system
        labels).1.register_boxed_system_with_labels
        (r.register_boxed_system_with_labels w sys.into_system labels).2.1
        sys.into_system sys.into_system.defaultLabels).1)
      (i := (r.register_boxed_system_with_labels w sys.into_system
        labels).1.systems.length)
      (by omega)
      ((r.register_boxed_system_with_labels w sys.into_system
        labels).1.register_boxed_system_with_labels
        (r.register_boxed_system_with_labels w sys.into_system labels).2.1
        sys.into_system sys.into_system.defaultLabels).2.1
    refine ⟨r₂, w₂, ?_, ?_⟩
    · rw [run_system_unregistered_eq _ hreg₁]
      exact h₂
    · rw [(rsai_spec h₂).2.1, hlenR]

/-- Witness for C10: the empty registry, `demo_value` (automatic label `7`)
registered only under the explicit label `3`. -/
theorem claim_C10_witness :
    (SystemRegistry.default : SystemRegistry Nat Nat Nat).is_label_registered
        demo_value.autoLabel = false ∧
    demo_value.autoLabel ∉ [3] ∧
      C10_prop SystemRegistry.default 0 demo_value [3] :=
  ⟨rfl, by decide,
   claim_C10 SystemRegistry.default 0 demo_value [3] rfl (by decide)⟩

/-- Witness for C1: the empty registry and a system whose default labels
are exactly its automatic type-identity label. -/
theorem claim_C1_witness :
    WF (SystemRegistry.default : SystemRegistry Nat Nat Nat) ∧
    demo_value.into_system.defaultLabels = [demo_value.autoLabel] ∧
      C1_prop SystemRegistry.default 0 demo_value :=
  ⟨fun p hp => absurd hp (List.not_mem_nil p), rfl,
   claim_C1 SystemRegistry.default 0 demo_value
     (fun p hp => absurd hp (List.not_mem_nil p)) rfl⟩
